import Mathlib

/-!
Verification development for the `great-async` enhancement engine
(`createAsync` in `src/create-async.ts` and its helper modules).

The TypeScript source is shallowly embedded: JS `Map`s become association
lists, promise outcomes become `Except Nat Nat` (errors and values are
abstracted to naturals), `Date.now()` becomes an explicit `Nat` clock
carried by events, and the cooperative event loop is made explicit as a
step function over a schedule of events.  Each definition mirrors one
function of the source; the doc comment names the source location.
-/

namespace GreatAsync

/-! ## Association-list model of JS `Map` -/

/-- A JS `Map` with keys `κ` and values `β`, as an insertion-ordered
association list with at most one binding per key. -/
abbrev AList (κ β : Type) := List (κ × β)

/-- `Map.prototype.get`. -/
def alGet {κ β : Type} [DecidableEq κ] : AList κ β → κ → Option β
  | [], _ => none
  | (k, v) :: rest, key => if k = key then some v else alGet rest key

/-- `Map.prototype.set`: replace the binding in place, or append a new one. -/
def alSet {κ β : Type} [DecidableEq κ] : AList κ β → κ → β → AList κ β
  | [], key, v => [(key, v)]
  | (k, w) :: rest, key, v =>
    if k = key then (k, v) :: rest else (k, w) :: alSet rest key v

/-- `Map.prototype.delete`: remove the (unique) binding for a key. -/
def alDelete {κ β : Type} [DecidableEq κ] : AList κ β → κ → AList κ β
  | [], _ => []
  | (k, w) :: rest, key =>
    if k = key then alDelete rest key else (k, w) :: alDelete rest key

/-- Update the value stored under a key, if present. -/
def alUpdate {κ β : Type} [DecidableEq κ] (f : β → β) : AList κ β → κ → AList κ β
  | [], _ => []
  | (k, w) :: rest, key =>
    if k = key then (k, f w) :: rest else (k, w) :: alUpdate f rest key

instance {α β : Type} [DecidableEq α] [DecidableEq β] : DecidableEq (Except α β) :=
  fun a b =>
    match a, b with
    | .ok x, .ok y => decidable_of_iff (x = y) (by simp)
    | .error x, .error y => decidable_of_iff (x = y) (by simp)
    | .ok _, .error _ => .isFalse (by simp)
    | .error _, .ok _ => .isFalse (by simp)

/-! ## Cache entries and `getCache` (src `common.ts`) -/

/-- `CacheData` from `common.ts`: `{ timestamp: number; data: any }`.
Data values are abstracted to `Nat`; JS reference identity `===` on them
becomes equality. -/
structure CacheEntry where
  timestamp : Nat
  data : Nat
deriving DecidableEq, Repr

/-- Embeds `getCache` from `common.ts`.  `store` is `cacheMap.get(fn)` for the
enhanced instance, `now` is `Date.now()`.  The source checks the ttl branch
first (hit if the entry is fresh), then the capacity branch (hit if an entry
merely exists), then returns `null`. -/
def getCache (ttl cacheCapacity : Int) (store : AList String CacheEntry)
    (key : String) (now : Nat) : Option Nat :=
  let ttlHit : Option Nat :=
    if ttl ≠ -1 then
      match alGet store key with
      | some cacheObj =>
        if (now : Int) - (cacheObj.timestamp : Int) < ttl then some cacheObj.data else none
      | none => none
    else none
  match ttlHit with
  | some v => some v
  | none =>
    if cacheCapacity ≠ -1 then
      match alGet store key with
      | some cacheObj => some cacheObj.data
      | none => none
    else none

/-- The hit condition in the words of the spec (section 4.3): "A lookup is a
hit iff an entry exists and (`ttl` disabled, or `now - entry.timestamp < ttl`)".
Stated separately from `getCache` so the two can be compared. -/
def specCacheHit (ttl : Int) (store : AList String CacheEntry)
    (key : String) (now : Nat) : Bool :=
  match alGet store key with
  | some cacheObj => ttl = -1 ∨ (now : Int) - (cacheObj.timestamp : Int) < ttl
  | none => false

/-! ## `clearCache` (create-async.ts lines 32-42 and 565-570) -/

/-- Embeds `clearCache(fn, key?)` (create-async.ts lines 32-42).  The source
guard is JS truthiness `if (key)`, which is false both for `undefined` and for
the empty string; in both falsy cases the whole store is cleared. -/
def clearCache (store : AList String CacheEntry) (key : Option String) :
    AList String CacheEntry :=
  match key with
  | some k => if k ≠ "" then alDelete store k else []
  | none => []

/-- Embeds `fnClearCache` (create-async.ts lines 565-570):
`clearCache(fnProxy, params.length ? genKeyByParams(params) : undefined)`. -/
def fnClearCache (genKeyByParams : List Nat → String)
    (store : AList String CacheEntry) (params : List Nat) :
    AList String CacheEntry :=
  clearCache store (if params.length ≠ 0 then some (genKeyByParams params) else none)

/-! ## Retry driver (create-async.ts lines 413-429) -/

/-- Embeds `retryFn`.  `producer attempt` is the outcome of the `attempt`-th
producer invocation (the source's `await fn(...params)`); `retryStrategy` is
the configured predicate (defaulting to `() => false` when no retry policy is
given).  The source recursion is unbounded when the predicate keeps returning
`true`, so the embedding carries explicit fuel and returns `none` on
exhaustion.  The result pairs the number of producer invocations performed
with the final outcome. -/
def retryFn (producer : Nat → Except Nat Nat) (retryStrategy : Nat → Nat → Bool) :
    Nat → Nat → Option (Nat × Except Nat Nat)
  | 0, _ => none
  | fuel + 1, currentAttempt =>
    match producer currentAttempt with
    | .ok v => some (1, .ok v)
    | .error e =>
      if retryStrategy e currentAttempt then
        (retryFn producer retryStrategy fuel (currentAttempt + 1)).map
          (fun r => (r.1 + 1, r.2))
      else some (1, .error e)

/-! ## Take-latest coalescer (src `take-latest-promise.ts`) -/

/-- Settled outcome of one producer promise. -/
abbrev Outcome := Except Nat Nat

/-- Embeds the snapshot-and-recheck loop of `afterAllPromiseResolved`
(take-latest-promise.ts lines 38-49) for one key.  `growth k` is the batch of
promises appended to the key's queue while the `k`-th `Promise.allSettled`
pass was in flight (promises are represented by their eventual outcomes; the
loop itself never inspects them).  The source records `len`, awaits
`allSettled` of the queue, and recurses exactly when the queue grew past
`len`; an empty queue returns immediately. -/
def afterAllPromiseResolved : List (List Outcome) → List Outcome → List Outcome
  | [], q => q
  | g :: rest, q =>
    if q.length = 0 then q
    else if (q ++ g).length > q.length then afterAllPromiseResolved rest (q ++ g)
    else q

/-- Embeds `returnResWithStatus` (take-latest-promise.ts lines 51-61): read
the queue's last element (`at(-1)`); a rejected latest promise propagates the
rejection and leaves the queue untouched (the clearing line is only reached
in the fulfilled branch); a fulfilled one clears the queue and returns the
value.  Returns `(delivered outcome, queue afterwards)`; `none` for an empty
queue. -/
def returnResWithStatus (queue : List Outcome) : Option (Outcome × List Outcome) :=
  queue.getLast?.map (fun latest =>
    match latest with
    | .error e => (.error e, queue)
    | .ok v => (.ok v, []))

/-- Result delivered to a caller of a take-latest group whose queue snapshot
at that caller's settle time is `q0` and whose subsequent growth batches are
`growth`: the caller's chain runs `afterAllPromiseResolved` and then
`returnResWithStatus`.  In the event loop every caller of the group reads the
queue's last element before the first of them clears it (their
`returnResWithStatus` callbacks are queued as one wave of microtasks), so
each caller computes this same value. -/
def takeLatestGroupResult (growth : List (List Outcome)) (q0 : List Outcome) :
    Option Outcome :=
  (returnResWithStatus (afterAllPromiseResolved growth q0)).map (fun r => r.1)

/-! ## Bounded LRU cache, modelled from the spec

The repository ships `src/LRU.ts` (imported by `create-async.ts` line 3 and
instantiated at lines 558-563), but that file is not part of the provided
sources; the class is modelled from the spec here. -/

/-- Modelled from the spec: the `LRU` class of `src/LRU.ts`, whose source is
not included.  Spec 2/4.2: "ordered key set plus entry map; every `get`/`set`
marks the key most-recently-used; inserting past capacity evicts the
least-recently-used key."  The entry list is kept most-recently-used first,
so eviction drops from the tail. -/
structure LRU where
  capacity : Nat
  entries : AList String Nat
deriving DecidableEq, Repr

/-- Modelled from the spec: `get(key)` returns the entry if present and marks
the key most-recently-used. -/
def LRU.get (l : LRU) (k : String) : Option Nat × LRU :=
  match alGet l.entries k with
  | some v => (some v, { l with entries := (k, v) :: alDelete l.entries k })
  | none => (none, l)

/-- Modelled from the spec: `set(key, entry)` stores the entry
most-recently-used and evicts from the least-recently-used end when the
store would exceed its capacity. -/
def LRU.set (l : LRU) (k : String) (v : Nat) : LRU :=
  { l with entries := (((k, v) :: alDelete l.entries k).take l.capacity) }

/-- Modelled from the spec: `delete(key)`. -/
def LRU.del (l : LRU) (k : String) : LRU :=
  { l with entries := alDelete l.entries k }

/-- Modelled from the spec: `clear()`. -/
def LRU.clear (l : LRU) : LRU :=
  { l with entries := [] }

/-- One operation on the bounded cache. -/
inductive LRUOp
  | get (k : String)
  | set (k : String) (v : Nat)
  | del (k : String)
  | clear
deriving DecidableEq, Repr

/-- Apply one operation (the lookup result of `get` is discarded here; only
the recency side effect matters for the store). -/
def LRU.apply (l : LRU) : LRUOp → LRU
  | .get k => (LRU.get l k).2
  | .set k v => LRU.set l k v
  | .del k => LRU.del l k
  | .clear => LRU.clear l

/-- Run a sequence of operations from the empty store of a given capacity,
as `createAsync` builds it (create-async.ts lines 558-563, capacity ≠ -1). -/
def LRU.runOps (cap : Nat) (ops : List LRUOp) : LRU :=
  ops.foldl LRU.apply { capacity := cap, entries := [] }

/-! ## Event-loop model of `fnProxy` (create-async.ts lines 358-572)

The proxy's per-call control flow, its shared registries and the
continuations of its promise chain are made explicit.  Parameters of a call
are abstracted to a single `Nat`; producer invocations (`finalFn(params)`,
which with no retry policy and no take-latest is a single producer call) are
identified by a counter and settled by explicit schedule events.  The
opportunistic ttl sweep (`clearExpiredCache`) only runs in a later macrotask
and is not modelled; the `beforeRun` hook has no observable effect on the
registries and is not modelled either. -/

/-- `SCOPE` from `common.ts`. -/
inductive Scope
  | FUNCTION
  | PARAMETERS
deriving DecidableEq, Repr

/-- Keys of `timerMapOfDebounce` and `promiseHandlerMap`: either the reserved
symbol (`DEFAULT_TIMER_KEY` / `DEFAULT_SINGLE_KEY`) or a generated string
key. -/
inductive MapKey
  | deflt
  | str (s : String)
deriving DecidableEq, Repr

/-- The scope-key used for a lookup/registration: the reserved symbol for
`FUNCTION` scope, the generated key for `PARAMETERS` scope. -/
def sfKeyOf (scope : Scope) (key : String) : MapKey :=
  match scope with
  | .FUNCTION => .deflt
  | .PARAMETERS => .str key

/-- The configuration slice of `createAsync` that `fnProxy` reads
(create-async.ts lines 366-400), with the source defaults. -/
structure Config where
  ttl : Int := -1
  cacheCapacity : Int := -1
  swr : Bool := false
  singleEnabled : Bool := false
  singleScope : Scope := .FUNCTION
  debounceTime : Int := -1
  debounceScope : Scope := .FUNCTION
  keyGen : Nat → String

/-- One `promiseHandler` (create-async.ts lines 492-549): the promise built
by one fresh call.  `innerResolved` records whether the executor's
`resolve`/`reject` has been consumed (immediately for `debounceTime === -1`,
by the timer callback, or by the fan-out `listener.forEach`); `outer` is the
settled result of the whole `.then/.catch` chain. -/
structure PromiseHandler where
  key : String
  params : Nat
  innerResolved : Bool
  outer : Option (Except Nat Nat)
deriving DecidableEq, Repr

/-- What a call returned to its caller: a promise already resolved with a
cached value (`Promise.resolve(cache.value)`), or a `promiseHandler`
identified by its id (possibly another call's, under single-flight). -/
inductive CallerRet
  | direct (v : Nat)
  | viaPH (phId : Nat)
deriving DecidableEq, Repr

/-- One call made on the enhanced function. -/
structure Caller where
  params : Nat
  key : String
  ret : CallerRet
deriving DecidableEq, Repr

/-- One `finalFn(params)` invocation.  `ownerPH = none` marks an SWR
background update (create-async.ts lines 458-476), which settles outside any
`promiseHandler` chain. -/
structure Invocation where
  params : Nat
  key : String
  ownerPH : Option Nat
  settled : Bool
deriving DecidableEq, Repr

/-- A `setTimeout` handle created by the debounce registration.  Its callback
is the `resolve` of the `promiseHandler` that created it; `clearTimeout`
marks it cancelled. -/
structure TimerRec where
  ph : Nat
  cancelled : Bool
  fired : Bool
deriving DecidableEq, Repr

/-- The mutable state owned by one enhanced instance: the cache store
(`cacheMap.get(fnProxy)`), `timerMapOfDebounce`, `promiseHandlerMap`, the
shared `listener` array (create-async.ts lines 408-411, one array for the
whole instance), and bookkeeping for promises, invocations and hook
notifications. -/
structure St where
  cfg : Config
  cache : AList String CacheEntry
  timerMap : AList MapKey Nat
  timers : AList Nat TimerRec
  nextTimer : Nat
  pendingMap : AList MapKey Nat
  listeners : List Nat
  phs : AList Nat PromiseHandler
  nextPH : Nat
  invs : AList Nat Invocation
  nextInv : Nat
  callers : List Caller
  notifStart : List Nat
  notifUpdate : List (Option Nat × Option Nat)

/-- The state right after `createAsync` returns: every registry empty
(create-async.ts lines 404-411 and 558-563). -/
def initSt (cfg : Config) : St where
  cfg := cfg
  cache := []
  timerMap := []
  timers := []
  nextTimer := 0
  pendingMap := []
  listeners := []
  phs := []
  nextPH := 0
  invs := []
  nextInv := 0
  callers := []
  notifStart := []
  notifUpdate := []

/-- Record a new `finalFn(params)` invocation (the producer call itself). -/
def launchInvocation (s : St) (ownerPH : Option Nat) (params : Nat) (key : String) : St :=
  { s with invs := alSet s.invs s.nextInv ⟨params, key, ownerPH, false⟩,
           nextInv := s.nextInv + 1 }

/-- `clearTimeout(timerMapOfDebounce.get(tk))`: cancel whichever timer the
map currently holds for this scope-key. -/
def cancelCurrentTimer (s : St) (tk : MapKey) : St :=
  match alGet s.timerMap tk with
  | some tid => { s with timers := alUpdate (fun t => { t with cancelled := true }) s.timers tid }
  | none => s

/-- The unconditional registration at the end of `fnProxy`
(create-async.ts lines 550-555): store the fresh `promiseHandler` under the
single-flight scope-key and hand it to the caller. -/
def registerHandler (s : St) (phId : Nat) (key : String) (params : Nat) : St :=
  { s with pendingMap := alSet s.pendingMap (sfKeyOf s.cfg.singleScope key) phId,
           callers := s.callers ++ [⟨params, key, .viaPH phId⟩] }

/-- The fresh-invocation branch (create-async.ts lines 492-555): build the
`promiseHandler`.  With `debounceTime === -1` the executor resolves at once
and the `.then` continuation runs `finalFn(params)` in the next microtask —
modelled at the call event, since no other event can observe the gap.
Otherwise the call joins the shared `listener` array and (re)starts the
debounce timer for its scope-key. -/
def freshCall (s : St) (key : String) (params : Nat) : St :=
  let phId := s.nextPH
  if s.cfg.debounceTime = -1 then
    let s1 := { s with phs := alSet s.phs phId ⟨key, params, true, none⟩, nextPH := phId + 1 }
    registerHandler (launchInvocation s1 (some phId) params key) phId key params
  else
    let s1 := { s with phs := alSet s.phs phId ⟨key, params, false, none⟩, nextPH := phId + 1,
                       listeners := s.listeners ++ [phId] }
    let tk := sfKeyOf s.cfg.debounceScope key
    let s2 := cancelCurrentTimer s1 tk
    let tid := s2.nextTimer
    let s3 := { s2 with timers := alSet s2.timers tid ⟨phId, false, false⟩,
                        nextTimer := tid + 1,
                        timerMap := alSet s2.timerMap tk tid }
    registerHandler s3 phId key params

/-- One call of `fnProxy(...params)` at time `time` (create-async.ts lines
441-556): derive the key, look the cache up, then branch — SWR hit, plain
hit, single-flight reuse, or fresh invocation. -/
def handleCall (s : St) (time : Nat) (params : Nat) : St :=
  let key := s.cfg.keyGen params
  match getCache s.cfg.ttl s.cfg.cacheCapacity s.cache key time with
  | some v =>
    if s.cfg.swr then
      -- lines 450-479: resolve the caller with the cached value, notify
      -- onBackgroundUpdateStart, start the background update immediately
      let s1 := { s with callers := s.callers ++ [⟨params, key, .direct v⟩],
                         notifStart := s.notifStart ++ [v] }
      launchInvocation s1 none params key
    else
      -- lines 481-483: plain hit
      { s with callers := s.callers ++ [⟨params, key, .direct v⟩] }
  | none =>
    -- lines 484-491: single-flight lookup, only consulted when debounce is off
    match (if s.cfg.singleEnabled ∧ s.cfg.debounceTime = -1 then
             alGet s.pendingMap (sfKeyOf s.cfg.singleScope key)
           else none) with
    | some phId => { s with callers := s.callers ++ [⟨params, key, .viaPH phId⟩] }
    | none => freshCall s key params

/-- A debounce timer fires (the `setTimeout(resolve, debounceTime)` callback,
create-async.ts lines 502/506).  A cancelled or spent timer does nothing;
`resolve` on an already-resolved promise does nothing; otherwise the owner's
chain sees `arg === undefined` and runs `finalFn(params)` (lines 509-512). -/
def handleTimerFire (s : St) (tid : Nat) : St :=
  match alGet s.timers tid with
  | none => s
  | some tr =>
    if tr.cancelled ∨ tr.fired then s
    else
      let s1 := { s with timers := alUpdate (fun t => { t with fired := true }) s.timers tid }
      match alGet s1.phs tr.ph with
      | none => s1
      | some ph =>
        if ph.innerResolved then s1
        else
          let s2 := { s1 with phs := alUpdate (fun p => { p with innerResolved := true }) s1.phs tr.ph }
          launchInvocation s2 (some tr.ph) ph.params ph.key

/-- `listener.forEach(i => i.resolve(composeRes))` (create-async.ts lines
528-530): resolve each waiter's inner promise — a no-op for waiters whose
promise is already resolved (its own timer fired, or it is the invoking call
itself); a still-waiting waiter's chain then settles with the value (the
`FalsyValue` wrapper unwraps to the same value at line 541). -/
def fanoutResolve (s : St) (v : Nat) : St :=
  s.listeners.foldl (fun acc phId =>
    { acc with phs := alUpdate (fun p =>
        if p.innerResolved then p
        else { p with innerResolved := true, outer := some (.ok v) }) acc.phs phId }) s

/-- `listener.forEach(i => i.reject(e))` (create-async.ts lines 533-536). -/
def fanoutReject (s : St) (e : Nat) : St :=
  s.listeners.foldl (fun acc phId =>
    { acc with phs := alUpdate (fun p =>
        if p.innerResolved then p
        else { p with innerResolved := true, outer := some (.error e) }) acc.phs phId }) s

/-- The `.finally` of one `promiseHandler` (create-async.ts lines 543-549):
delete the reserved key and this call's key from the timer map (the map entry
only — the underlying timer is not cancelled) and from `promiseHandlerMap`,
and reset the shared `listener` array. -/
def phFinally (s : St) (phId : Nat) : St :=
  match alGet s.phs phId with
  | none => s
  | some ph =>
    { s with timerMap := alDelete (alDelete s.timerMap .deflt) (.str ph.key),
             pendingMap := alDelete (alDelete s.pendingMap .deflt) (.str ph.key),
             listeners := [] }

/-- A `finalFn` invocation settles.  For a background (SWR) invocation this
is `backgroundUpdate`'s `try/catch` (create-async.ts lines 458-473): on
success overwrite the cache entry (when caching is configured) and notify
`onBackgroundUpdate` with the fresh value; on failure leave the cache alone
and notify with the error.  For an owned invocation it is the `.then`
success/failure continuation (lines 513-541): on success write through to the
cache unless the stored data is reference-identical, fan the value out to
every waiter, settle the owner; on failure reject every waiter and the owner;
in both cases the `.finally` of every chain settled by this event runs. -/
def handleSettle (s : St) (invId : Nat) (outcome : Except Nat Nat) (time : Nat) : St :=
  match alGet s.invs invId with
  | none => s
  | some inv =>
    if inv.settled then s
    else
      let s0 := { s with invs := alUpdate (fun i => { i with settled := true }) s.invs invId }
      match inv.ownerPH with
      | none =>
        match outcome with
        | .ok v =>
          let s1 := if s0.cfg.ttl ≠ -1 ∨ s0.cfg.cacheCapacity ≠ -1 then
                      { s0 with cache := alSet s0.cache inv.key ⟨time, v⟩ }
                    else s0
          { s1 with notifUpdate := s1.notifUpdate ++ [(some v, none)] }
        | .error e => { s0 with notifUpdate := s0.notifUpdate ++ [(none, some e)] }
      | some ownerId =>
        let settledNow := ownerId :: s0.listeners.filter (fun phId =>
          match alGet s0.phs phId with
          | some p => ¬ p.innerResolved
          | none => false)
        match outcome with
        | .ok v =>
          let s1 := if (s0.cfg.ttl ≠ -1 ∨ s0.cfg.cacheCapacity ≠ -1) ∧
                       (alGet s0.cache inv.key).map CacheEntry.data ≠ some v then
                      { s0 with cache := alSet s0.cache inv.key ⟨time, v⟩ }
                    else s0
          let s2 := fanoutResolve s1 v
          let s3 := { s2 with phs := alUpdate (fun p =>
                       { p with innerResolved := true, outer := some (.ok v) }) s2.phs ownerId }
          settledNow.foldl phFinally s3
        | .error e =>
          let s2 := fanoutReject s0 e
          let s3 := { s2 with phs := alUpdate (fun p =>
                       { p with innerResolved := true, outer := some (.error e) }) s2.phs ownerId }
          settledNow.foldl phFinally s3

/-- One event of the cooperative schedule: a call on the enhanced function, a
debounce timer firing, or a producer invocation settling with an outcome. -/
inductive Ev
  | call (time : Nat) (params : Nat)
  | timerFire (tid : Nat)
  | settle (invId : Nat) (outcome : Except Nat Nat) (time : Nat)

/-- Execute one event. -/
def step (s : St) : Ev → St
  | .call t p => handleCall s t p
  | .timerFire tid => handleTimerFire s tid
  | .settle i o t => handleSettle s i o t

/-- Run a schedule from the fresh instance. -/
def run (cfg : Config) (evs : List Ev) : St :=
  evs.foldl step (initSt cfg)

/-- The settled result of the promise a caller received: a direct cached
value, or the outer result of the `promiseHandler` it holds. -/
def callerOutcome (s : St) (c : Caller) : Option (Except Nat Nat) :=
  match c.ret with
  | .direct v => some (.ok v)
  | .viaPH phId => (alGet s.phs phId).bind (fun p => p.outer)

/-- The configuration of the failing debounce schedule: per-parameter
debounce with two distinct keys. -/
def crossKeyCfg : Config :=
  { debounceTime := 100, debounceScope := .PARAMETERS,
    keyGen := fun n => if n = 1 then "K1" else "K2" }

/-- The failing schedule: a call for key K1 at t=0 and one for key K2 at
t=50 under a 100ms debounce; K1's timer fires at t=100 and K1's producer
settles with 7 at t=110, before K2's timer (due t=150) fires. -/
def crossKeySchedule : List Ev :=
  [.call 0 1, .call 50 2, .timerFire 0, .settle 0 (.ok 7) 110]

/-- A single-flight configuration used as a concrete witness input. -/
def sfCfg : Config := { singleEnabled := true, keyGen := fun _ => "k" }

/-- An SWR configuration used as a concrete witness input. -/
def swrCfg : Config := { ttl := 1000, swr := true, keyGen := fun _ => "k" }

/-- The state of a single-flight instance (scope FUNCTION, no debounce) after
a burst of calls: one in-flight invocation owned by `promiseHandler` 0, which
is registered under the reserved key; `cs` are the callers so far. -/
def sfState1 (cfg : Config) (p : Nat) (cs : List Caller) : St :=
  { cfg := cfg, cache := [], timerMap := [], timers := [], nextTimer := 0,
    pendingMap := [(MapKey.deflt, 0)], listeners := [],
    phs := [(0, ⟨cfg.keyGen p, p, true, none⟩)], nextPH := 1,
    invs := [(0, ⟨p, cfg.keyGen p, some 0, false⟩)], nextInv := 1,
    callers := cs, notifStart := [], notifUpdate := [] }

/-- A concrete cached state used as a witness input: one fresh entry under
key "k". -/
def cachedSt : St := { initSt { ttl := 1000, keyGen := fun _ => "k" } with
                         cache := [("k", ⟨0, 7⟩)] }

/-- A concrete SWR state used as a witness input. -/
def swrSt : St := { initSt swrCfg with cache := [("k", ⟨0, 7⟩)] }

/-- A concrete state with an in-flight owned invocation whose key already
holds identical data, used as a witness input. -/
def identicalDataSt : St :=
  { initSt sfCfg with
      cache := [("k", ⟨0, 9⟩)],
      invs := [(0, ⟨5, "k", some 0, false⟩)], nextInv := 1,
      phs := [(0, ⟨"k", 5, true, none⟩)], nextPH := 1 }

/-! ## Helper lemmas -/

@[simp] theorem alGet_nil {κ β : Type} [DecidableEq κ] (k : κ) :
    alGet ([] : AList κ β) k = none := rfl

@[simp] theorem alGet_cons {κ β : Type} [DecidableEq κ] (k key : κ) (v : β) (rest : AList κ β) :
    alGet ((k, v) :: rest) key = if k = key then some v else alGet rest key := rfl

theorem getCache_empty (ttl cap : Int) (key : String) (now : Nat) :
    getCache ttl cap [] key now = none := by
  unfold getCache
  by_cases h1 : ttl = -1 <;> by_cases h2 : cap = -1 <;> simp [h1, h2]

theorem alDelete_length_le {κ β : Type} [DecidableEq κ] (m : AList κ β) (k : κ) :
    (alDelete m k).length ≤ m.length := by
  induction m with
  | nil => simp [alDelete]
  | cons hd rest ih =>
    obtain ⟨k', w⟩ := hd
    by_cases h : k' = k <;> simp [alDelete, h] <;> omega

theorem alGet_some_delete_length_lt {κ β : Type} [DecidableEq κ]
    {m : AList κ β} {k : κ} {v : β} (h : alGet m k = some v) :
    (alDelete m k).length < m.length := by
  induction m with
  | nil => simp [alGet] at h
  | cons hd rest ih =>
    obtain ⟨k', w⟩ := hd
    by_cases hk : k' = k
    · have := alDelete_length_le (κ := κ) (β := β) rest k
      simp [alDelete, hk]
      omega
    · simp [alGet, hk] at h
      have := ih h
      simp [alDelete, hk]
      omega

/-! ## Claim theorems -/

/-- Claim C2, counterexample to the claim as stated: with `ttl = 1000` and
`capacity = 2` both configured and an entry of age 2000 ≥ ttl, the spec's hit
condition ("an entry exists and (ttl disabled or now − timestamp < ttl)") is
false, yet `getCache` reports a hit through its capacity branch, which never
checks freshness. -/
theorem c2_cache_hit_counterexample :
    getCache 1000 2 [("k", ⟨0, 7⟩)] "k" 2000 = some 7 ∧
    specCacheHit 1000 [("k", ⟨0, 7⟩)] "k" 2000 = false := by
  exact ⟨rfl, rfl⟩

/-- Claim C2 (amended): with caching configured, the lookup is a hit iff an
entry for the derived key exists and ((ttl is enabled and now − timestamp
< ttl) or capacity is enabled), in which case the hit value is the entry's
data; and a hit without SWR appends a caller resolved directly with the
cached value while starting no producer invocation and leaving the cache
store unchanged. -/
theorem c2_cache_hit_amended :
    (∀ (ttl cap : Int) (store : AList String CacheEntry) (key : String) (now : Nat),
      getCache ttl cap store key now =
        match alGet store key with
        | some c =>
          if (ttl ≠ -1 ∧ (now : Int) - (c.timestamp : Int) < ttl) ∨ cap ≠ -1
          then some c.data else none
        | none => none) ∧
    (∀ (s : St) (t p v : Nat), s.cfg.swr = false →
      getCache s.cfg.ttl s.cfg.cacheCapacity s.cache (s.cfg.keyGen p) t = some v →
      (handleCall s t p).callers = s.callers ++ [⟨p, s.cfg.keyGen p, .direct v⟩] ∧
      (handleCall s t p).invs = s.invs ∧
      (handleCall s t p).cache = s.cache ∧
      callerOutcome (handleCall s t p) ⟨p, s.cfg.keyGen p, .direct v⟩ = some (.ok v)) := by
  constructor
  · intro ttl cap store key now
    unfold getCache
    cases h : alGet store key with
    | none => by_cases h1 : ttl = -1 <;> by_cases h3 : cap = -1 <;> simp [h, h1, h3]
    | some c =>
      by_cases h1 : ttl = -1 <;>
        by_cases h2 : (now : Int) - (c.timestamp : Int) < ttl <;>
          by_cases h3 : cap = -1 <;> simp [h, h1, h2, h3]
  · intro s t p v hswr hhit
    simp only [handleCall, hhit, hswr]
    simp [callerOutcome]

/-- Claim C5: the retry driver invokes the producer with a 1-based attempt
counter; success returns the value after that single invocation; on failure
it consults `retry(error, currentAttempt)` — `true` re-invokes with
`currentAttempt + 1`, `false` (and the default strategy used when no retry
policy is configured) propagates the rejection unchanged; and in the spec's
scenario (failures on attempts 1–3, predicate `attempt ≤ 3`, success on
attempt 4) the producer runs exactly 4 times and the final outcome is the
attempt-4 value. -/
theorem c5_retry_driver :
    (∀ (producer : Nat → Except Nat Nat) (p : Nat → Nat → Bool) (fuel a v : Nat),
      producer a = .ok v → retryFn producer p (fuel + 1) a = some (1, .ok v)) ∧
    (∀ (producer : Nat → Except Nat Nat) (p : Nat → Nat → Bool) (fuel a e : Nat),
      producer a = .error e → p e a = true →
      retryFn producer p (fuel + 1) a =
        (retryFn producer p fuel (a + 1)).map (fun r => (r.1 + 1, r.2))) ∧
    (∀ (producer : Nat → Except Nat Nat) (p : Nat → Nat → Bool) (fuel a e : Nat),
      producer a = .error e → p e a = false →
      retryFn producer p (fuel + 1) a = some (1, .error e)) ∧
    (∀ (producer : Nat → Except Nat Nat) (fuel a e : Nat),
      producer a = .error e →
      retryFn producer (fun _ _ => false) (fuel + 1) a = some (1, .error e)) ∧
    retryFn (fun a => if a ≤ 3 then .error a else .ok 100)
      (fun _ a => decide (a ≤ 3)) 10 1 = some (4, .ok 100) := by
  refine ⟨?_, ?_, ?_, ?_, by rfl⟩
  · intro producer p fuel a v h
    simp [retryFn, h]
  · intro producer p fuel a e h hp
    simp [retryFn, h, hp]
  · intro producer p fuel a e h hp
    simp [retryFn, h, hp]
  · intro producer fuel a e h
    simp [retryFn, h]

/-- Claim C5, witness: the retry driver at concrete inputs. -/
theorem c5_retry_driver_witness :
    ((fun a => if a ≤ 3 then Except.error a else Except.ok 100) 4 = Except.ok 100) ∧
    retryFn (fun a => if a ≤ 3 then .error a else .ok 100)
      (fun _ _ => false) 5 4 = some (1, .ok 100) ∧
    ((fun a => if a ≤ 3 then Except.error a else Except.ok 100) 1 = Except.error 1) ∧
    retryFn (fun a => if a ≤ 3 then .error a else .ok 100)
      (fun _ _ => false) 5 1 = some (1, .error 1) := by
  refine ⟨by decide, ?_, by decide, ?_⟩
  · exact c5_retry_driver.1 (fun a => if a ≤ 3 then .error a else .ok 100)
      (fun _ _ => false) 4 4 100 (by decide)
  · exact c5_retry_driver.2.2.2.1 (fun a => if a ≤ 3 then .error a else .ok 100) 4 1 1 (by decide)

/-- Claim C7, counterexample: a take-latest group whose last appended promise
rejected.  `returnResWithStatus` rejects every waiter with that reason but
leaves the queue as it was — the clearing statement is only reached in the
fulfilled branch — so the queue is not cleared "regardless of outcome" as the
claim states. -/
theorem c7_queue_counterexample :
    returnResWithStatus [Except.ok 1, Except.error 2] =
      some (Except.error 2, [Except.ok 1, Except.error 2]) ∧
    ([Except.ok 1, Except.error 2] : List Outcome) ≠ [] := by
  exact ⟨rfl, by decide⟩

/-- Claim C7 (amended): once an overlapping group settles, every waiter
settles with the outcome of the last promise appended to that key's queue;
the queue is then cleared when that last promise resolved, and is left
unchanged when it rejected. -/
theorem c7_queue_cleared_on_success :
    ∀ (q : List Outcome),
      (∀ v, q.getLast? = some (.ok v) → returnResWithStatus q = some (.ok v, [])) ∧
      (∀ e, q.getLast? = some (.error e) → returnResWithStatus q = some (.error e, q)) := by
  intro q
  constructor
  · intro v h
    simp [returnResWithStatus, h]
  · intro e h
    simp [returnResWithStatus, h]

/-- Claim C7, witness: a group ending in a fulfilled promise delivers its
value and clears the queue. -/
theorem c7_queue_cleared_on_success_witness :
    ([Except.error 5, Except.ok 3] : List Outcome).getLast? = some (.ok 3) ∧
    returnResWithStatus [Except.error 5, Except.ok 3] = some (Except.ok 3, []) := by
  exact ⟨rfl, (c7_queue_cleared_on_success [Except.error 5, Except.ok 3]).1 3 rfl⟩

/-- Claim C3: the snapshot-and-recheck loop absorbs exactly the growth that
happens before the queue stabilizes, so a caller entering with a non-empty
snapshot `q0` ends on `q0` extended by every batch appended before the first
quiet pass; every caller of the group therefore settles with the outcome of
the last (most recently issued) element of that final queue, whatever the
individual promises' completion order (the loop only awaits `allSettled` of
the whole queue, never individual completion ranks).  Concretely: four
overlapping calls all settle with call 4's outcome, and if a fifth call joins
before the group drains, all (including the fifth caller's own chain) settle
with call 5's outcome. -/
theorem c3_take_latest :
    (∀ (growth : List (List Outcome)) (q0 : List Outcome), q0 ≠ [] →
      afterAllPromiseResolved growth q0 =
        q0 ++ (growth.takeWhile (fun g => !g.isEmpty)).flatten) ∧
    (∀ (growth : List (List Outcome)) (q0 : List Outcome) (last : Outcome), q0 ≠ [] →
      (q0 ++ (growth.takeWhile (fun g => !g.isEmpty)).flatten).getLast? = some last →
      takeLatestGroupResult growth q0 = some last) ∧
    takeLatestGroupResult [[]] [.ok 10, .ok 20, .ok 30, .ok 40] = some (.ok 40) ∧
    takeLatestGroupResult [[.ok 50], []] [.ok 10, .ok 20, .ok 30, .ok 40] = some (.ok 50) ∧
    takeLatestGroupResult [[]] [.ok 10, .ok 20, .ok 30, .ok 40, .ok 50] = some (.ok 50) := by
  have hdrain : ∀ (growth : List (List Outcome)) (q0 : List Outcome), q0 ≠ [] →
      afterAllPromiseResolved growth q0 =
        q0 ++ (growth.takeWhile (fun g => !g.isEmpty)).flatten := by
    intro growth
    induction growth with
    | nil => intro q0 _; simp [afterAllPromiseResolved]
    | cons g rest ih =>
      intro q0 hq0
      by_cases hg : g = []
      · simp [afterAllPromiseResolved, hg, List.length_eq_zero, hq0]
      · have hgrow : (q0 ++ g).length > q0.length := by
          simp [List.length_append]
          exact List.length_pos.mpr hg
        have hne : q0 ++ g ≠ [] := by
          simp [hq0]
        rw [afterAllPromiseResolved]
        simp only [List.length_eq_zero, hq0, if_false, hgrow, if_true]
        rw [ih (q0 ++ g) hne]
        have hje : g.isEmpty = false := by simp [List.isEmpty_iff, hg]
        simp [List.takeWhile_cons, hje, List.append_assoc]
  refine ⟨hdrain, ?_, by rfl, by rfl, by rfl⟩
  intro growth q0 last hq0 hlast
  unfold takeLatestGroupResult
  rw [hdrain growth q0 hq0]
  cases last with
  | ok v => simp [returnResWithStatus, hlast]
  | error e => simp [returnResWithStatus, hlast]

/-- Claim C3, witness: the drain characterization and the delivered outcome
at a concrete growth schedule. -/
theorem c3_take_latest_witness :
    (([Except.ok 10] : List Outcome) ≠ []) ∧
    afterAllPromiseResolved [[.ok 50], []] [.ok 10] = [Except.ok 10, Except.ok 50] ∧
    (([Except.ok 10] : List Outcome) ++
      (([[.ok 50], []] : List (List Outcome)).takeWhile (fun g => !g.isEmpty)).flatten).getLast?
      = some (.ok 50) ∧
    takeLatestGroupResult [[.ok 50], []] [.ok 10] = some (.ok 50) := by
  refine ⟨by decide, ?_, by rfl, ?_⟩
  · rw [c3_take_latest.1 [[.ok 50], []] [.ok 10] (by decide)]
    rfl
  · exact c3_take_latest.2.1 [[.ok 50], []] [.ok 10] (.ok 50) (by decide) (by rfl)

/-- Claim C10: when the key generator returns the empty string for a
non-empty parameter list, `enhanced.clearCache(...params)` passes `""` to
`clearCache`, whose JS-truthiness guard `if (key)` treats it like
`undefined`: the whole store is cleared, not just the empty-string entry. -/
theorem c10_clear_cache_empty_key :
    ∀ (genKeyByParams : List Nat → String) (store : AList String CacheEntry)
      (params : List Nat),
      params ≠ [] → genKeyByParams params = "" →
      fnClearCache genKeyByParams store params = [] := by
  intro gen store params hp hk
  unfold fnClearCache clearCache
  rw [if_pos (by simpa [List.length_eq_zero] using hp)]
  simp [hk]

/-- Claim C10, witness: a two-entry store is wiped entirely by
`clearCache(params)` under an empty-string key generator. -/
theorem c10_clear_cache_empty_key_witness :
    (([3] : List Nat) ≠ []) ∧ ((fun (_ : List Nat) => "") [3] = "") ∧
    fnClearCache (fun _ => "") [("a", ⟨0, 1⟩), ("b", ⟨0, 2⟩)] [3] = [] := by
  exact ⟨by decide, rfl,
    c10_clear_cache_empty_key (fun _ => "") [("a", ⟨0, 1⟩), ("b", ⟨0, 2⟩)] [3] (by decide) rfl⟩

/-- The capacity of the bounded store is unchanged by every operation. -/
theorem lru_apply_capacity (l : LRU) (op : LRUOp) : (LRU.apply l op).capacity = l.capacity := by
  cases op with
  | get k =>
    unfold LRU.apply LRU.get
    cases h : alGet l.entries k <;> simp [h]
  | set k v => simp [LRU.apply, LRU.set]
  | del k => simp [LRU.apply, LRU.del]
  | clear => simp [LRU.apply, LRU.clear]

/-- Every operation preserves the size bound of the bounded store. -/
theorem lru_apply_length (l : LRU) (op : LRUOp) (h : l.entries.length ≤ l.capacity) :
    (LRU.apply l op).entries.length ≤ (LRU.apply l op).capacity := by
  rw [lru_apply_capacity]
  cases op with
  | get k =>
    unfold LRU.apply LRU.get
    cases hg : alGet l.entries k with
    | none => simpa [hg] using h
    | some v =>
      have := alGet_some_delete_length_lt hg
      simp only [hg, List.length_cons]
      omega
  | set k v =>
    simp only [LRU.apply, LRU.set]
    calc (((k, v) :: alDelete l.entries k).take l.capacity).length
        ≤ l.capacity := by simp [List.length_take]
  | del k =>
    have := alDelete_length_le l.entries k
    simp only [LRU.apply, LRU.del]
    omega
  | clear => simp [LRU.apply, LRU.clear]

/-- The capacity is unchanged along any run of operations. -/
theorem lru_foldl_capacity :
    ∀ (ops : List LRUOp) (l : LRU), (ops.foldl LRU.apply l).capacity = l.capacity := by
  intro ops
  induction ops with
  | nil => intro l; rfl
  | cons op rest ih => intro l; rw [List.foldl_cons, ih, lru_apply_capacity]

/-- The size bound holds along any run of operations. -/
theorem lru_runOps_inv :
    ∀ (ops : List LRUOp) (l : LRU), l.entries.length ≤ l.capacity →
      (ops.foldl LRU.apply l).entries.length ≤ (ops.foldl LRU.apply l).capacity := by
  intro ops
  induction ops with
  | nil => intro l h; simpa using h
  | cons op rest ih =>
    intro l h
    exact ih (LRU.apply l op) (lru_apply_length l op h)

/-- Claim C9: with a positive capacity, the bounded LRU store never holds
more than `capacity` entries along any sequence of operations from the empty
store; and with `capacity = 2`, inserting keys A, B, C evicts A, so a
subsequent lookup of A misses. -/
theorem c9_lru_bound_and_eviction :
    (∀ (cap : Nat) (ops : List LRUOp), 0 < cap →
      (LRU.runOps cap ops).entries.length ≤ cap) ∧
    ((LRU.runOps 2 [.set "A" 1, .set "B" 2, .set "C" 3]).get "A").1 = none := by
  constructor
  · intro cap ops _
    have h := lru_runOps_inv ops { capacity := cap, entries := [] } (by simp)
    have hcap := lru_foldl_capacity ops { capacity := cap, entries := [] }
    rw [LRU.runOps]
    rw [hcap] at h
    exact h
  · rfl

/-- Claim C9, witness: the size bound at a concrete capacity and operation
sequence. -/
theorem c9_lru_bound_witness :
    (0 < 2) ∧
    (LRU.runOps 2 [.set "A" 1, .set "B" 2, .set "C" 3, .get "B", .set "D" 4]).entries.length ≤ 2 := by
  exact ⟨by decide,
    c9_lru_bound_and_eviction.1 2 [.set "A" 1, .set "B" 2, .set "C" 3, .get "B", .set "D" 4]
      (by decide)⟩

/-- Claim C2, witness: the amended hit behaviour at a concrete store. -/
theorem c2_cache_hit_amended_witness :
    cachedSt.cfg.swr = false ∧
    getCache cachedSt.cfg.ttl cachedSt.cfg.cacheCapacity cachedSt.cache
      (cachedSt.cfg.keyGen 3) 500 = some 7 ∧
    (handleCall cachedSt 500 3).callers =
      cachedSt.callers ++ [⟨3, cachedSt.cfg.keyGen 3, .direct 7⟩] ∧
    (handleCall cachedSt 500 3).invs = cachedSt.invs := by
  refine ⟨rfl, rfl, ?_, ?_⟩
  · exact ((c2_cache_hit_amended.2 cachedSt 500 3 7 rfl rfl).1)
  · exact ((c2_cache_hit_amended.2 cachedSt 500 3 7 rfl rfl).2.1)

/-- Claim C1, evaluation at the failing input.  The claim (and spec 4.4)
says each key has its own waiter list and that a burst's outcome reaches no
waiter of a different key; but `listener` (create-async.ts lines 408-411) is
one shared array per instance.  On this schedule only K1's timer fires and
only K1's producer runs (one invocation), yet the fan-out resolves the K2
caller with K1's value, and K2's producer is never invoked. -/
theorem c1_debounce_cross_key_delivery :
    ((run crossKeyCfg crossKeySchedule).callers.map
        (fun c => (c.key, callerOutcome (run crossKeyCfg crossKeySchedule) c)) =
      [("K1", some (.ok 7)), ("K2", some (.ok 7))]) ∧
    (run crossKeyCfg crossKeySchedule).invs.length = 1 := by
  exact ⟨rfl, rfl⟩

/-- The first call on a fresh single-flight instance (scope FUNCTION, no
debounce): a miss starts invocation 0 and registers `promiseHandler` 0 under
the reserved single-flight key. -/
theorem singleflight_first_call (cfg : Config) (t p : Nat)
    (h2 : cfg.singleScope = Scope.FUNCTION) (h3 : cfg.debounceTime = -1) :
    handleCall (initSt cfg) t p = sfState1 cfg p [⟨p, cfg.keyGen p, CallerRet.viaPH 0⟩] := by
  simp [handleCall, initSt, getCache_empty, freshCall, registerHandler,
    launchInvocation, sfKeyOf, alSet, alGet, h2, h3, sfState1, ite_self]


/-- `step` unfolding equations. -/
theorem step_call (s : St) (t p : Nat) : step s (Ev.call t p) = handleCall s t p := rfl

theorem step_settle (s : St) (i : Nat) (o : Except Nat Nat) (t : Nat) :
    step s (Ev.settle i o t) = handleSettle s i o t := rfl

theorem singleflight_reuse_call (s : St) (t q phId : Nat)
    (h1 : s.cfg.singleEnabled = true) (h2 : s.cfg.singleScope = Scope.FUNCTION)
    (h3 : s.cfg.debounceTime = -1) (hc : s.cache = [])
    (hp : alGet s.pendingMap MapKey.deflt = some phId) :
    handleCall s t q =
      { s with callers := s.callers ++ [⟨q, s.cfg.keyGen q, CallerRet.viaPH phId⟩] } := by
  simp only [handleCall, hc, getCache_empty]
  simp [h1, h2, h3, sfKeyOf, hp]

theorem singleflight_calls_fold :
    ∀ (qs : List Nat) (s : St) (t phId : Nat),
      s.cfg.singleEnabled = true → s.cfg.singleScope = Scope.FUNCTION →
      s.cfg.debounceTime = -1 → s.cache = [] →
      alGet s.pendingMap MapKey.deflt = some phId →
      (qs.map (Ev.call t)).foldl step s =
        { s with callers := s.callers ++
            qs.map (fun q => ⟨q, s.cfg.keyGen q, CallerRet.viaPH phId⟩) } := by
  intro qs
  induction qs with
  | nil => intro s t phId _ _ _ _ _; simp
  | cons q rest ih =>
    intro s t phId h1 h2 h3 hc hp
    simp only [List.map_cons, List.foldl_cons]
    rw [step_call,
        singleflight_reuse_call s t q phId h1 h2 h3 hc hp,
        ih ({ s with callers := s.callers ++ [⟨q, s.cfg.keyGen q, CallerRet.viaPH phId⟩] }) t phId h1 h2 h3 hc hp]
    simp

theorem singleflight_settle (cfg : Config) (p ts : Nat)
    (cs : List Caller) (o : Except Nat Nat) :
    (handleSettle (sfState1 cfg p cs) 0 o ts).pendingMap = [] ∧
    (handleSettle (sfState1 cfg p cs) 0 o ts).phs =
      [(0, ⟨cfg.keyGen p, p, true, some o⟩)] ∧
    (handleSettle (sfState1 cfg p cs) 0 o ts).callers = cs := by
  cases o with
  | ok v =>
    by_cases hcw : (cfg.ttl ≠ -1 ∨ cfg.cacheCapacity ≠ -1) <;>
      simp [handleSettle, sfState1, alGet, alUpdate, fanoutResolve, phFinally, alDelete, hcw]
  | error e =>
    simp [handleSettle, sfState1, alGet, alUpdate, fanoutReject, phFinally, alDelete]


theorem c4_single_flight :
    ∀ (cfg : Config) (t ts p v : Nat) (qs : List Nat) (o : Except Nat Nat),
      cfg.singleEnabled = true → cfg.singleScope = Scope.FUNCTION →
      cfg.debounceTime = -1 →
      (run cfg ((p :: qs).map (Ev.call t))).invs.length = 1 ∧
      (run cfg ((p :: qs).map (Ev.call t))).callers.length = qs.length + 1 ∧
      (∀ c ∈ (run cfg ((p :: qs).map (Ev.call t))).callers, c.ret = CallerRet.viaPH 0) ∧
      (step (run cfg ((p :: qs).map (Ev.call t))) (Ev.settle 0 o ts)).pendingMap = [] ∧
      (∀ c ∈ (step (run cfg ((p :: qs).map (Ev.call t)))
                (Ev.settle 0 (Except.ok v) ts)).callers,
        callerOutcome
          (step (run cfg ((p :: qs).map (Ev.call t))) (Ev.settle 0 (Except.ok v) ts)) c
          = some (Except.ok v)) := by
  intro cfg t ts p v qs o h1 h2 h3
  have hrun : run cfg ((p :: qs).map (Ev.call t)) =
      sfState1 cfg p (⟨p, cfg.keyGen p, CallerRet.viaPH 0⟩ ::
        qs.map (fun q => ⟨q, cfg.keyGen q, CallerRet.viaPH 0⟩)) := by
    show ((Ev.call t p :: qs.map (Ev.call t)).foldl step (initSt cfg)) = _
    rw [List.foldl_cons,
        step_call,
        singleflight_first_call cfg t p h2 h3,
        singleflight_calls_fold qs _ t 0 h1 h2 h3 rfl (by simp [sfState1, alGet])]
    simp [sfState1]
  refine ⟨?_, ?_, ?_, ?_, ?_⟩
  · rw [hrun]; rfl
  · rw [hrun]; simp [sfState1]
  · rw [hrun]
    intro c hc
    simp only [sfState1] at hc
    rcases List.mem_cons.mp hc with h | h
    · rw [h]
    · rcases List.mem_map.mp h with ⟨q, _, hq⟩
      rw [← hq]
  · rw [hrun]
    exact (singleflight_settle cfg p ts _ o).1
  · rw [hrun]
    have hs := singleflight_settle cfg p ts
      (⟨p, cfg.keyGen p, CallerRet.viaPH 0⟩ ::
        qs.map (fun q => ⟨q, cfg.keyGen q, CallerRet.viaPH 0⟩)) (Except.ok v)
    intro c hc
    rw [step_settle] at hc ⊢
    rw [hs.2.2] at hc
    have hret : c.ret = CallerRet.viaPH 0 := by
      rcases List.mem_cons.mp hc with h | h
      · rw [h]
      · rcases List.mem_map.mp h with ⟨q, _, hq⟩
        rw [← hq]
    unfold callerOutcome
    rw [hret, hs.2.1]
    simp [alGet]


/-- Claim C4, witness: three concurrent calls under single-flight. -/
theorem c4_single_flight_witness :
    sfCfg.singleEnabled = true ∧ sfCfg.singleScope = Scope.FUNCTION ∧
    sfCfg.debounceTime = -1 ∧
    (run sfCfg ([5, 6, 7].map (Ev.call 0))).invs.length = 1 ∧
    (step (run sfCfg ([5, 6, 7].map (Ev.call 0))) (Ev.settle 0 (.ok 9) 1)).pendingMap = [] := by
  have h := c4_single_flight sfCfg 0 1 5 9 [6, 7] (.ok 9) rfl rfl rfl
  exact ⟨rfl, rfl, rfl, h.1, h.2.2.2.1⟩

/-- Claim C6: in SWR mode a hit resolves the caller directly with the cached
value (the caller's promise is settled at call time) while the background
invocation starts; a failing background update leaves the cache store
untouched and reports the error only through the `onBackgroundUpdate`
notification; and for any background outcome the callers and their settled
results are unchanged — the background task can never reach the original
caller's promise. -/
theorem c6_swr_background_isolation :
    (∀ (s : St) (t p v : Nat), s.cfg.swr = true →
      getCache s.cfg.ttl s.cfg.cacheCapacity s.cache (s.cfg.keyGen p) t = some v →
      (handleCall s t p).callers = s.callers ++ [⟨p, s.cfg.keyGen p, CallerRet.direct v⟩] ∧
      (handleCall s t p).notifStart = s.notifStart ++ [v] ∧
      (handleCall s t p).invs = alSet s.invs s.nextInv ⟨p, s.cfg.keyGen p, none, false⟩ ∧
      callerOutcome (handleCall s t p) ⟨p, s.cfg.keyGen p, CallerRet.direct v⟩
        = some (.ok v)) ∧
    (∀ (s : St) (invId : Nat) (inv : Invocation) (e t : Nat),
      alGet s.invs invId = some inv → inv.settled = false → inv.ownerPH = none →
      (handleSettle s invId (.error e) t).cache = s.cache ∧
      (handleSettle s invId (.error e) t).notifUpdate = s.notifUpdate ++ [(none, some e)] ∧
      (handleSettle s invId (.error e) t).callers = s.callers ∧
      (handleSettle s invId (.error e) t).phs = s.phs) ∧
    (∀ (s : St) (invId : Nat) (inv : Invocation) (o : Except Nat Nat) (t : Nat),
      alGet s.invs invId = some inv → inv.ownerPH = none →
      (handleSettle s invId o t).callers = s.callers ∧
      (handleSettle s invId o t).phs = s.phs ∧
      (∀ c : Caller, callerOutcome (handleSettle s invId o t) c = callerOutcome s c)) := by
  refine ⟨?_, ?_, ?_⟩
  · intro s t p v hswr hhit
    simp only [handleCall, hhit, hswr]
    simp [launchInvocation, callerOutcome]
  · intro s invId inv e t hinv hset howner
    simp [handleSettle, hinv, hset, howner]
  · intro s invId inv o t hinv howner
    have hproj : (handleSettle s invId o t).callers = s.callers ∧
        (handleSettle s invId o t).phs = s.phs := by
      cases hs : inv.settled with
      | true => simp [handleSettle, hinv, hs]
      | false =>
        cases o with
        | ok v =>
          by_cases hcw : (s.cfg.ttl ≠ -1 ∨ s.cfg.cacheCapacity ≠ -1) <;>
            simp [handleSettle, hinv, hs, howner, hcw]
        | error e => simp [handleSettle, hinv, hs, howner]
    refine ⟨hproj.1, hproj.2, ?_⟩
    intro c
    unfold callerOutcome
    cases c.ret with
    | direct w => rfl
    | viaPH phId => rw [hproj.2]

/-- Claim C6, witness: a concrete SWR hit followed by a failing background
update. -/
theorem c6_swr_background_isolation_witness :
    swrSt.cfg.swr = true ∧
    getCache swrSt.cfg.ttl swrSt.cfg.cacheCapacity swrSt.cache
      (swrSt.cfg.keyGen 3) 500 = some 7 ∧
    (handleCall swrSt 500 3).callers =
      swrSt.callers ++ [⟨3, swrSt.cfg.keyGen 3, CallerRet.direct 7⟩] ∧
    alGet (handleCall swrSt 500 3).invs 0 = some ⟨3, "k", none, false⟩ ∧
    (handleSettle (handleCall swrSt 500 3) 0 (.error 4) 600).cache =
      (handleCall swrSt 500 3).cache ∧
    (handleSettle (handleCall swrSt 500 3) 0 (.error 4) 600).notifUpdate =
      (handleCall swrSt 500 3).notifUpdate ++ [(none, some 4)] ∧
    (handleSettle (handleCall swrSt 500 3) 0 (.error 4) 600).callers =
      (handleCall swrSt 500 3).callers := by
  refine ⟨rfl, rfl, ?_, rfl, ?_, ?_, ?_⟩
  · exact (c6_swr_background_isolation.1 swrSt 500 3 7 rfl rfl).1
  · exact (c6_swr_background_isolation.2.1 (handleCall swrSt 500 3) 0
      ⟨3, "k", none, false⟩ 4 600 rfl rfl rfl).1
  · exact (c6_swr_background_isolation.2.1 (handleCall swrSt 500 3) 0
      ⟨3, "k", none, false⟩ 4 600 rfl rfl rfl).2.1
  · exact (c6_swr_background_isolation.2.1 (handleCall swrSt 500 3) 0
      ⟨3, "k", none, false⟩ 4 600 rfl rfl rfl).2.2.1

/-- The fan-out over the waiter list only touches promise states, never the
cache store. -/
theorem fanout_foldl_cache (v : Nat) :
    ∀ (l : List Nat) (s : St),
      (l.foldl (fun acc phId =>
        { acc with phs := alUpdate (fun p =>
            if p.innerResolved then p
            else { p with innerResolved := true, outer := some (Except.ok v) }) acc.phs phId }) s).cache
        = s.cache := by
  intro l
  induction l with
  | nil => intro s; rfl
  | cons hd tl ih => intro s; rw [List.foldl_cons, ih]

theorem fanoutResolve_cache (s : St) (v : Nat) : (fanoutResolve s v).cache = s.cache :=
  fanout_foldl_cache v s.listeners s

/-- A chain's `.finally` only touches the timer map, the pending registry and
the waiter list, never the cache store. -/
theorem phFinally_cache (s : St) (phId : Nat) : (phFinally s phId).cache = s.cache := by
  unfold phFinally
  cases alGet s.phs phId <;> rfl

theorem phFinally_foldl_cache :
    ∀ (l : List Nat) (s : St), (l.foldl phFinally s).cache = s.cache := by
  intro l
  induction l with
  | nil => intro s; rfl
  | cons hd tl ih => intro s; rw [List.foldl_cons, ih, phFinally_cache]

/-- Claim C8: when an owned (fresh) invocation succeeds with caching enabled,
the settle continuation stores the new value with the settle-time clock under
the invocation's key — unless the entry already holds identical data, in
which case the store (entry and timestamp included) is left unchanged; with
caching disabled nothing is written. -/
theorem c8_cache_write_through :
    ∀ (s : St) (invId pid v t : Nat) (inv : Invocation),
      alGet s.invs invId = some inv → inv.settled = false → inv.ownerPH = some pid →
      (((s.cfg.ttl ≠ -1 ∨ s.cfg.cacheCapacity ≠ -1) →
        (alGet s.cache inv.key).map CacheEntry.data ≠ some v →
        (handleSettle s invId (.ok v) t).cache = alSet s.cache inv.key ⟨t, v⟩) ∧
      ((alGet s.cache inv.key).map CacheEntry.data = some v →
        (handleSettle s invId (.ok v) t).cache = s.cache) ∧
      (¬ (s.cfg.ttl ≠ -1 ∨ s.cfg.cacheCapacity ≠ -1) →
        (handleSettle s invId (.ok v) t).cache = s.cache)) := by
  intro s invId pid v t inv hinv hset howner
  have hcore : (handleSettle s invId (.ok v) t).cache =
      (if (s.cfg.ttl ≠ -1 ∨ s.cfg.cacheCapacity ≠ -1) ∧
          (alGet s.cache inv.key).map CacheEntry.data ≠ some v
       then alSet s.cache inv.key ⟨t, v⟩ else s.cache) := by
    simp only [handleSettle, hinv]
    rw [if_neg (by simp [hset])]
    simp only [howner]
    rw [phFinally_foldl_cache]
    simp only [fanoutResolve_cache]
    rw [apply_ite St.cache]
  refine ⟨?_, ?_, ?_⟩
  · intro hen hnid
    rw [hcore, if_pos ⟨hen, hnid⟩]
  · intro hid
    rw [hcore, if_neg (fun hC => hC.2 hid)]
  · intro hdis
    rw [hcore, if_neg (fun hC => hdis hC.1)]

/-- Claim C8, witness: the skipped write at a concrete state whose entry
already holds identical data. -/
theorem c8_cache_write_through_witness :
    alGet identicalDataSt.invs 0 = some ⟨5, "k", some 0, false⟩ ∧
    (⟨5, "k", some 0, false⟩ : Invocation).settled = false ∧
    (alGet identicalDataSt.cache "k").map CacheEntry.data = some 9 ∧
    (handleSettle identicalDataSt 0 (.ok 9) 3).cache = identicalDataSt.cache := by
  refine ⟨rfl, rfl, rfl, ?_⟩
  exact (c8_cache_write_through identicalDataSt 0 0 9 3
    ⟨5, "k", some 0, false⟩ rfl rfl rfl).2.1 rfl

end GreatAsync
